import Mathlib

/-!
Verification development for registration-updater.py: a poll/diff/forward
loop that fetches validator registration records from a source relay,
compares them with an in-memory snapshot, reshapes them and forwards the
full current dataset to a target relay, committing the snapshot only after
a successful forward.

The JSON values handled by the script (the results of response.json and
the payloads it posts) are modelled by the inductive type Json.  Numbers
are modelled as integers; no property below depends on float behaviour.
Python dicts are modelled as association lists in insertion order (a
Python dict never holds the same key twice, and iteration order is
insertion order).  Python set iteration order is unspecified, so where the
script iterates over a set of keys the embedding fixes a concrete
enumeration order and order-sensitive properties are stated up to
permutation.  Exceptions are modelled with Option/Except: a none/error
value marks the places where the Python code raises.
-/

/-- JSON values as produced by response.json(). -/
inductive Json where
  | null : Json
  | bool : Bool → Json
  | num : Int → Json
  | str : String → Json
  | arr : List Json → Json
  | obj : List (String × Json) → Json

mutual

/-- Structural equality of JSON values (Python == on parsed JSON). -/
def beqJson : Json → Json → Bool
  | .null, .null => true
  | .bool a, .bool b => a == b
  | .num a, .num b => a == b
  | .str a, .str b => a == b
  | .arr a, .arr b => beqJsonList a b
  | .obj a, .obj b => beqJsonFields a b
  | _, _ => false

def beqJsonList : List Json → List Json → Bool
  | [], [] => true
  | x :: xs, y :: ys => beqJson x y && beqJsonList xs ys
  | _, _ => false

def beqJsonFields : List (String × Json) → List (String × Json) → Bool
  | [], [] => true
  | (k1, v1) :: xs, (k2, v2) :: ys => k1 == k2 && beqJson v1 v2 && beqJsonFields xs ys
  | _, _ => false

end

mutual

theorem beqJson_iff : (a b : Json) → (beqJson a b = true ↔ a = b)
  | .null, b => by cases b <;> simp [beqJson]
  | .bool x, b => by cases b <;> simp [beqJson]
  | .num x, b => by cases b <;> simp [beqJson]
  | .str x, b => by cases b <;> simp [beqJson]
  | .arr xs, b => by
      cases b <;> simp [beqJson]
      exact beqJsonList_iff xs _
  | .obj fs, b => by
      cases b <;> simp [beqJson]
      exact beqJsonFields_iff fs _

theorem beqJsonList_iff : (a b : List Json) → (beqJsonList a b = true ↔ a = b)
  | [], b => by cases b <;> simp [beqJsonList]
  | x :: xs, [] => by simp [beqJsonList]
  | x :: xs, y :: ys => by
      simp [beqJsonList, Bool.and_eq_true, beqJson_iff x y, beqJsonList_iff xs ys]

theorem beqJsonFields_iff : (a b : List (String × Json)) → (beqJsonFields a b = true ↔ a = b)
  | [], b => by cases b <;> simp [beqJsonFields]
  | f :: fs, [] => by simp [beqJsonFields]
  | (k1, v1) :: fs, (k2, v2) :: gs => by
      simp [beqJsonFields, Bool.and_eq_true, beqJson_iff v1 v2, beqJsonFields_iff fs gs]

end

instance : DecidableEq Json := fun a b => decidable_of_iff _ (beqJson_iff a b)

/-- Lookup of a string key in a Python dict represented as an association
list in insertion order.  First match wins; a dict produced by the Python
runtime never holds the same key twice. -/
def lookupField (k : String) : List (String × Json) → Option Json
  | [] => none
  | (k1, v) :: fs => if k1 = k then some v else lookupField k fs

/-- Lexicographic comparison of strings by code point, the order Python
uses to sort str keys. -/
def strLeChars : List Char → List Char → Bool
  | [], _ => true
  | _ :: _, [] => false
  | a :: as, b :: bs =>
    if a.toNat < b.toNat then true
    else if b.toNat < a.toNat then false
    else strLeChars as bs

def strLe (a b : String) : Bool := strLeChars a.data b.data

theorem strLeChars_refl (l : List Char) : strLeChars l l = true := by
  induction l with
  | nil => rfl
  | cons a as ih => simp [strLeChars, ih]

theorem strLe_refl (a : String) : strLe a a = true := strLeChars_refl a.data

/-- Insertion step of a stable insertion sort on field names; together with
sortFields it models the sorted key order that json.dumps uses when
sort_keys=True is passed. -/
def insertField (f : String × Json) : List (String × Json) → List (String × Json)
  | [] => [f]
  | g :: gs => if strLe f.1 g.1 then f :: g :: gs else g :: insertField f gs

def sortFields (fs : List (String × Json)) : List (String × Json) :=
  fs.foldr insertField []

mutual

/-- Canonical form of a JSON value: object keys sorted recursively.  Two
values have equal json.dumps(x, sort_keys=True) serializations exactly
when their canonical forms are equal: the serializer is injective on
canonical forms (distinct trees print differently), so the string
comparison at line 164 of the script is modelled as equality of canonical
forms. -/
def canon : Json → Json
  | .null => .null
  | .bool b => .bool b
  | .num n => .num n
  | .str s => .str s
  | .arr xs => .arr (canonList xs)
  | .obj fs => .obj (sortFields (canonFields fs))

def canonList : List Json → List Json
  | [] => []
  | x :: xs => canon x :: canonList xs

def canonFields : List (String × Json) → List (String × Json)
  | [] => []
  | (k, v) :: fs => (k, canon v) :: canonFields fs

end

/-- Identifier extraction item["entry"]["message"]["pubkey"] as performed
by detect_changes (lines 153-154).  none marks the cases where Python
raises: KeyError when a key along the path is missing, TypeError when an
intermediate value is not a dict.  A pubkey that is not a string is also
mapped to none (on the wire it is always a hex string); none of the
properties below depends on non-string pubkeys. -/
def pkOf (item : Json) : Option String :=
  match item with
  | .obj fs =>
    match lookupField "entry" fs with
    | some (.obj es) =>
      match lookupField "message" es with
      | some (.obj ms) =>
        match lookupField "pubkey" ms with
        | some (.str s) => some s
        | _ => none
      | _ => none
    | _ => none
  | _ => none

/-- Insertion into a Python dict: an existing key keeps its position but
receives the new value, a new key is appended at the end. -/
def insertDict (k : String) (v : Json) : List (String × Json) → List (String × Json)
  | [] => [(k, v)]
  | (k1, v1) :: rest => if k1 = k then (k, v) :: rest else (k1, v1) :: insertDict k v rest

/-- Left-to-right evaluation of the dict comprehension at lines 153-154,
with the accumulated dict so far; none when some record lacks the pubkey
path (the comprehension raises). -/
def buildDictAux (acc : List (String × Json)) : List Json → Option (List (String × Json))
  | [] => some acc
  | item :: rest =>
    match pkOf item with
    | none => none
    | some k => buildDictAux (insertDict k item acc) rest

def buildDict (data : List Json) : Option (List (String × Json)) :=
  buildDictAux [] data

/-- Last record of the sequence whose pubkey path yields k. -/
def lastWith (k : String) : List Json → Option Json
  | [] => none
  | item :: rest =>
    match lastWith k rest with
    | some r => some r
    | none => if pkOf item = some k then some item else none

/-- Result shape of detect_changes (lines 167-171). -/
structure ChangeSet where
  added : List Json
  removed : List Json
  updated : List Json
deriving DecidableEq

/-- Change detector (lines 150-171).  The two dict comprehensions are
modelled by buildDict; none marks the KeyError/TypeError raised when a
record lacks the pubkey path, which escapes detect_changes and is caught
by the blanket handler of fetch_validators.  The script enumerates the
added, removed and common keys through Python sets, whose iteration order
is unspecified; this embedding enumerates added and common keys in the
insertion order of the new dict and removed keys in the insertion order of
the old dict, and order-sensitive properties about the returned sequences
are stated up to permutation. -/
def detect_changes (old_data new_data : List Json) : Option ChangeSet :=
  match buildDict old_data, buildDict new_data with
  | some old_keys, some new_keys =>
    let added_keys := (new_keys.map Prod.fst).filter fun k => decide (lookupField k old_keys = none)
    let removed_keys := (old_keys.map Prod.fst).filter fun k => decide (lookupField k new_keys = none)
    let common_keys := (new_keys.map Prod.fst).filter fun k => decide (lookupField k old_keys ≠ none)
    let updated_keys := common_keys.filter fun k =>
      decide (Option.map canon (lookupField k old_keys) ≠ Option.map canon (lookupField k new_keys))
    some { added := added_keys.filterMap fun k => lookupField k new_keys,
           removed := removed_keys.filterMap fun k => lookupField k old_keys,
           updated := updated_keys.filterMap fun k => lookupField k new_keys }
  | _, _ => none

/-- Python membership test k in j, for a string k (lines 93).  For a dict
it tests key presence, for a list it tests element equality with the
string, for a string it is a substring test; for every other value Python
raises TypeError, modelled as error. -/
def containsKeyPy (j : Json) (k : String) : Except Unit Bool :=
  match j with
  | .obj fs => .ok (fs.any fun f => decide (f.1 = k))
  | .arr xs => .ok (xs.any fun x => decide (x = Json.str k))
  | .str s => .ok (decide (k.data <:+: s.data))
  | _ => .error ()

/-- Python subscription j[k] with a string key (lines 93-97).  KeyError on
a dict without the key and TypeError on every non-dict value are both
modelled as error. -/
def getItemPy (j : Json) (k : String) : Except Unit Json :=
  match j with
  | .obj fs =>
    match lookupField k fs with
    | some v => .ok v
    | none => .error ()
  | _ => .error ()

/-- Body of the per-record branch of transform_data_format (lines 92-101):
ok (some t) when the record is reshaped to t, ok none when the record is
skipped as malformed, error when the evaluation of the condition or of the
extraction raises. -/
def transformItem (item : Json) : Except Unit (Option Json) :=
  match containsKeyPy item "entry" with
  | .error e => .error e
  | .ok false => .ok none
  | .ok true =>
    match getItemPy item "entry" with
    | .error e => .error e
    | .ok e =>
      match containsKeyPy e "message" with
      | .error e2 => .error e2
      | .ok false => .ok none
      | .ok true =>
        match containsKeyPy e "signature" with
        | .error e2 => .error e2
        | .ok false => .ok none
        | .ok true =>
          match getItemPy e "message", getItemPy e "signature" with
          | .ok m, .ok s => .ok (some (Json.obj [("message", m), ("signature", s)]))
          | .error e2, _ => .error e2
          | _, .error e2 => .error e2

/-- Loop of transform_data_format over the fetched records; an exception
raised at any record aborts the whole loop. -/
def transformItems : List Json → Except Unit (List Json)
  | [] => .ok []
  | item :: rest =>
    match transformItem item with
    | .error e => .error e
    | .ok r =>
      match transformItems rest with
      | .error e => .error e
      | .ok rs =>
        match r with
        | some t => .ok (t :: rs)
        | none => .ok rs

/-- transform_data_format (lines 80-111): reshapes the records and, when
anything in the loop raises, returns the original data unchanged (the
except branch at lines 108-111). -/
def transform_data_format (data : List Json) : List Json :=
  match transformItems data with
  | .ok out => out
  | .error _ => data

/-- Payload that post_to_target hands to requests.post (lines 117 and
126): always the output of transform_data_format on the dataset. -/
def post_to_target_payload (data : List Json) : List Json :=
  transform_data_format data

/-- Status test of post_to_target (line 132): the accepted success range. -/
def post_to_target_ok (status : Nat) : Bool :=
  status == 200 || status == 201 || status == 202

/-- Shape of a record of the forwarded payload: an object with exactly the
two fields message and signature, in that order (the dict literal at lines
95-98). -/
def isForwardShape : Json → Bool
  | .obj [("message", _), ("signature", _)] => true
  | _ => false

/-- Presence of the key field in a record, true only for dict records. -/
def entryField (item : Json) : Option Json :=
  match item with
  | .obj fs => lookupField "entry" fs
  | _ => none

def entryMessage (item : Json) : Option Json :=
  match entryField item with
  | some (.obj es) => lookupField "message" es
  | _ => none

def entrySignature (item : Json) : Option Json :=
  match entryField item with
  | some (.obj es) => lookupField "signature" es
  | _ => none

/-- Record whose shape keeps the transformation loop exception-free: the
record is a dict and its entry field, when present, is a dict. -/
def goodItem (item : Json) : Bool :=
  match item with
  | .obj fs =>
    match lookupField "entry" fs with
    | some (.obj _) => true
    | some _ => false
    | none => true
  | _ => false

/-- Expected reshaping of a single well-shaped record: emitted when both
entry.message and entry.signature are present, dropped otherwise. -/
def expectedTransform (item : Json) : Option Json :=
  match entryMessage item, entrySignature item with
  | some m, some s => some (Json.obj [("message", m), ("signature", s)])
  | _, _ => none

/-- One tick of the loop: the effect of a fetch_validators call (lines
29-78) on the stored snapshot self.validators.  fetched is the outcome of
the GET: none covers a transport failure, a non-200 status, and any other
exception reaching the blanket handler at line 76; some data is a 200
response whose body parsed to data.  postOK is the outcome of
post_to_target when it is called.  Returns the new stored snapshot and
whether a POST was attempted on this tick. -/
def tick (snap : Option (List Json)) (fetched : Option (List Json)) (postOK : Bool) :
    Option (List Json) × Bool :=
  match fetched with
  | none => (snap, false)
  | some data =>
    match snap with
    | some old =>
      match detect_changes old data with
      | none => (snap, false)
      | some cs =>
        if cs.added ≠ [] ∨ cs.removed ≠ [] ∨ cs.updated ≠ [] then
          if postOK then (some data, true) else (snap, true)
        else (snap, false)
    | none => if postOK then (some data, true) else (none, true)

/-- Observable loop state: the stored snapshot together with the last
dataset whose POST succeeded (the latter is the observation the spec calls
the last successfully forwarded dataset; the script itself stores only the
snapshot). -/
structure LoopState where
  snap : Option (List Json)
  lastForwarded : Option (List Json)
deriving DecidableEq

/-- One observed step: runs a tick and records the forwarded dataset when
the POST of this tick succeeded. -/
def stepState (s : LoopState) (fetched : Option (List Json)) (postOK : Bool) : LoopState :=
  let r := tick s.snap fetched postOK
  { snap := r.1,
    lastForwarded := if r.2 && postOK then fetched else s.lastForwarded }

/-- Run of the loop from process start (no snapshot, nothing forwarded)
over a sequence of tick events, each event giving the fetch outcome and
the post outcome of that tick. -/
def runTrace (events : List (Option (List Json) × Bool)) : LoopState :=
  events.foldl (fun s e => stepState s e.1 e.2) { snap := none, lastForwarded := none }

/-- Python str.endswith restricted to plain string arguments. -/
def endswith (s p : String) : Bool :=
  decide (p.data <:+ s.data)

/-- Python rstrip with argument a slash: removes every trailing slash. -/
def rstripSlashes (s : String) : String :=
  String.mk ((s.data.reverse.dropWhile fun c => c == '/').reverse)

def validatorsPath : String := "/relay/v1/builder/validators"

/-- Source URL normalisation in the constructor (lines 20-21): the path
segment is appended, after stripping trailing slashes, unless the given
URL already ends with it.  fetch_validators then issues its GET to exactly
this string (line 34). -/
def normalizeSourceRelay (s : String) : String :=
  if endswith s validatorsPath then s else rstripSlashes s ++ validatorsPath

/-- Exception classes relevant to the loop: KeyboardInterrupt (which is
not an Exception subclass) versus every ordinary Exception. -/
inductive ExcClass where
  | interrupt : ExcClass
  | ordinary : ExcClass
deriving DecidableEq

/-- Exception behaviour of a fetch_validators call (lines 29-78): the
entire tick body runs under try/except Exception, so every ordinary
exception raised anywhere in the body - fetch failure, a KeyError from
detect_changes, anything unanticipated - is caught there and the call
returns normally (with None, line 78); only a KeyboardInterrupt passes
through. -/
def fetchCatch (body : Except ExcClass (Option (List Json))) :
    Except ExcClass (Option (List Json)) :=
  match body with
  | .error .ordinary => .ok none
  | x => x

/-- Exit behaviour of run (lines 173-185) over a sequence of iterations,
each given by the uncaught outcome of the tick body and an optional
exception raised during the sleep.  Result: none while the loop is still
running, some 0 for the KeyboardInterrupt handler (clean return), some 1
for the except Exception handler (sys.exit(1)). -/
def runExit : List (Except ExcClass (Option (List Json)) × Option ExcClass) → Option Nat
  | [] => none
  | (body, sleepExc) :: rest =>
    match fetchCatch body with
    | .error .interrupt => some 0
    | .error .ordinary => some 1
    | .ok _ =>
      match sleepExc with
      | some .interrupt => some 0
      | some .ordinary => some 1
      | none => runExit rest

/-! Helper lemmas about the dict and canonical-form models. -/

theorem lookupField_insertDict (k k1 : String) (v : Json) (l : List (String × Json)) :
    lookupField k (insertDict k1 v l) = if k1 = k then some v else lookupField k l := by
  induction l with
  | nil => simp [insertDict, lookupField]
  | cons g gs ih =>
    obtain ⟨k2, v2⟩ := g
    simp only [insertDict]
    by_cases h1 : k2 = k1
    · subst h1
      rw [if_pos rfl]
      by_cases h : k2 = k <;> simp [lookupField, h]
    · rw [if_neg h1]
      by_cases h2 : k2 = k
      · subst h2
        have hne : ¬k1 = k2 := fun h => h1 h.symm
        simp [lookupField, hne]
      · simp [lookupField, h2, ih]

theorem insertDict_of_lookup_none (k : String) (v : Json) (l : List (String × Json))
    (h : lookupField k l = none) : insertDict k v l = l ++ [(k, v)] := by
  induction l with
  | nil => simp [insertDict]
  | cons g gs ih =>
    obtain ⟨k2, v2⟩ := g
    simp only [lookupField] at h
    by_cases h2 : k2 = k
    · rw [if_pos h2] at h
      exact absurd h (by simp)
    · rw [if_neg h2] at h
      simp [insertDict, h2, ih h]

theorem lookupField_append (k : String) (l1 l2 : List (String × Json)) :
    lookupField k (l1 ++ l2) =
      match lookupField k l1 with
      | some v => some v
      | none => lookupField k l2 := by
  induction l1 with
  | nil => simp [lookupField]
  | cons g gs ih =>
    obtain ⟨k2, v2⟩ := g
    by_cases h2 : k2 = k <;> simp [lookupField, h2, ih]

theorem lookupField_eq_none_iff (k : String) (l : List (String × Json)) :
    lookupField k l = none ↔ k ∉ l.map Prod.fst := by
  induction l with
  | nil => simp [lookupField]
  | cons g gs ih =>
    obtain ⟨k2, v2⟩ := g
    by_cases h2 : k2 = k
    · subst h2
      simp [lookupField]
    · have h3 : ¬k = k2 := fun h => h2 h.symm
      simp [lookupField, h2, h3, ih]

theorem lookupField_insertField (k : String) (f : String × Json) (l : List (String × Json)) :
    lookupField k (insertField f l) = if f.1 = k then some f.2 else lookupField k l := by
  induction l with
  | nil => simp [insertField, lookupField]
  | cons g gs ih =>
    obtain ⟨a, v⟩ := f
    obtain ⟨b, w⟩ := g
    simp only [insertField]
    cases hle : strLe a b with
    | true =>
      simp [lookupField]
    | false =>
      have hab : ¬a = b := fun h => by rw [h, strLe_refl b] at hle; cases hle
      simp only [lookupField, ih]
      by_cases hb : b = k
      · subst hb
        simp [hab]
      · simp [hb]

theorem lookupField_sortFields (k : String) (fs : List (String × Json)) :
    lookupField k (sortFields fs) = lookupField k fs := by
  induction fs with
  | nil => rfl
  | cons f fs ih =>
    obtain ⟨a, v⟩ := f
    show lookupField k (insertField (a, v) (sortFields fs)) = _
    rw [lookupField_insertField]
    by_cases ha : a = k <;> simp [lookupField, ha, ih]

theorem lookupField_canonFields (k : String) (fs : List (String × Json)) :
    lookupField k (canonFields fs) = (lookupField k fs).map canon := by
  induction fs with
  | nil => simp [canonFields, lookupField]
  | cons f fs ih =>
    obtain ⟨a, v⟩ := f
    by_cases ha : a = k <;> simp [canonFields, lookupField, ha, ih]

theorem pkOf_canon (r : Json) : pkOf (canon r) = pkOf r := by
  cases r <;> simp [pkOf, canon]
  rename_i fs
  rw [lookupField_sortFields, lookupField_canonFields]
  cases h1 : lookupField "entry" fs <;> simp
  rename_i v
  cases v <;> simp [canon]
  rename_i es
  rw [lookupField_sortFields, lookupField_canonFields]
  cases h2 : lookupField "message" es <;> simp
  rename_i w
  cases w <;> simp [canon]
  rename_i ms
  rw [lookupField_sortFields, lookupField_canonFields]
  cases h3 : lookupField "pubkey" ms <;> simp
  rename_i u
  cases u <;> simp [canon]

/-- Pubkey of a record known to have one (default irrelevant under the
isSome hypotheses below). -/
def pkD (r : Json) : String := (pkOf r).getD ""

theorem buildDictAux_lookup (data : List Json) :
    ∀ acc m, buildDictAux acc data = some m → ∀ k,
      lookupField k m =
        match lastWith k data with
        | some r => some r
        | none => lookupField k acc := by
  induction data with
  | nil =>
    intro acc m h k
    simp only [buildDictAux, Option.some_inj] at h
    subst h
    simp [lastWith]
  | cons item rest ih =>
    intro acc m h k
    simp only [buildDictAux] at h
    cases hpk : pkOf item with
    | none => rw [hpk] at h; exact absurd h (by simp)
    | some k1 =>
      rw [hpk] at h
      have step := ih (insertDict k1 item acc) m h k
      rw [lookupField_insertDict] at step
      simp only [lastWith]
      cases hlast : lastWith k rest with
      | some r => rw [hlast] at step; exact step
      | none =>
        rw [hlast] at step
        rw [step, hpk]
        by_cases hk : k1 = k
        · subst hk; simp
        · have : ¬(some k1 = some k) := by simp [hk]
          simp [hk, this]

theorem buildDict_lookup (data : List Json) (m : List (String × Json))
    (h : buildDict data = some m) (k : String) : lookupField k m = lastWith k data := by
  have step := buildDictAux_lookup data [] m h k
  cases hlast : lastWith k data with
  | some r => rw [hlast] at step; exact step
  | none => rw [hlast] at step; simpa [lookupField] using step

theorem buildDictAux_isSome (data : List Json) :
    ∀ acc, (∀ r ∈ data, (pkOf r).isSome) → (buildDictAux acc data).isSome := by
  induction data with
  | nil => intro acc _; simp [buildDictAux]
  | cons item rest ih =>
    intro acc h
    have h1 : (pkOf item).isSome := h item (by simp)
    cases hpk : pkOf item with
    | none => rw [hpk] at h1; simp at h1
    | some k1 =>
      simp only [buildDictAux, hpk]
      exact ih _ (fun r hr => h r (by simp [hr]))

theorem buildDict_none_of_mem (data : List Json) (r : Json) (hr : r ∈ data)
    (hpk : pkOf r = none) : buildDict data = none := by
  suffices h : ∀ acc, buildDictAux acc data = none by exact h []
  induction data with
  | nil => cases hr
  | cons item rest ih =>
    intro acc
    rcases List.mem_cons.mp hr with h1 | h1
    · subst h1
      simp [buildDictAux, hpk]
    · simp only [buildDictAux]
      cases hpk2 : pkOf item with
      | none => rfl
      | some k1 => exact ih h1 _

theorem buildDictAux_of_nodup (data : List Json) :
    ∀ acc, (∀ r ∈ data, (pkOf r).isSome) → ((data.map pkOf).Nodup) →
      (∀ r ∈ data, lookupField (pkD r) acc = none) →
      buildDictAux acc data = some (acc ++ data.map fun r => (pkD r, r)) := by
  induction data with
  | nil => intro acc _ _ _; simp [buildDictAux]
  | cons item rest ih =>
    intro acc hsome hnodup hfresh
    have h1 : (pkOf item).isSome := hsome item (by simp)
    cases hpk : pkOf item with
    | none => rw [hpk] at h1; simp at h1
    | some k1 =>
      have hk1 : pkD item = k1 := by simp [pkD, hpk]
      simp only [buildDictAux, hpk]
      have hacc : insertDict k1 item acc = acc ++ [(k1, item)] :=
        insertDict_of_lookup_none k1 item acc (hk1 ▸ hfresh item (by simp))
      rw [hacc]
      have hnodup2 : (rest.map pkOf).Nodup := (List.nodup_cons.mp (by simpa using hnodup)).2
      have hnotin : pkOf item ∉ rest.map pkOf := (List.nodup_cons.mp (by simpa using hnodup)).1
      have hfresh2 : ∀ r ∈ rest, lookupField (pkD r) (acc ++ [(k1, item)]) = none := by
        intro r hrm
        rw [lookupField_append, hfresh r (by simp [hrm])]
        have hrs : (pkOf r).isSome := hsome r (by simp [hrm])
        have hne : ¬k1 = pkD r := by
          intro he
          apply hnotin
          rw [hpk, he]
          have : pkOf r = some (pkD r) := by
            cases hx : pkOf r with
            | none => rw [hx] at hrs; simp at hrs
            | some s => simp [pkD, hx]
          rw [← this]
          exact List.mem_map_of_mem pkOf hrm
        simp [lookupField, hne]
      have := ih (acc ++ [(k1, item)]) (fun r hrm => hsome r (by simp [hrm])) hnodup2 hfresh2
      rw [this]
      simp [hk1]

theorem buildDict_of_nodup (data : List Json) (hsome : ∀ r ∈ data, (pkOf r).isSome)
    (hnodup : (data.map pkOf).Nodup) :
    buildDict data = some (data.map fun r => (pkD r, r)) := by
  have := buildDictAux_of_nodup data [] hsome hnodup (fun r _ => rfl)
  simpa [buildDict] using this

/-! Sample records used by the concrete witnesses. -/

def msgA : Json := Json.obj [("pubkey", Json.str "a"), ("gas", Json.num 1)]

def msgA2 : Json := Json.obj [("gas", Json.num 1), ("pubkey", Json.str "a")]

def recA1 : Json := Json.obj [("slot", Json.num 1),
  ("entry", Json.obj [("message", msgA), ("signature", Json.str "s1")])]

def recA2 : Json := Json.obj [("slot", Json.num 2),
  ("entry", Json.obj [("message", msgA), ("signature", Json.str "s2")])]

def recA1r : Json := Json.obj [("entry", Json.obj [("signature", Json.str "s1"),
  ("message", msgA2)]), ("slot", Json.num 1)]

def msgB : Json := Json.obj [("pubkey", Json.str "b")]

def recB : Json := Json.obj [("slot", Json.num 3),
  ("entry", Json.obj [("message", msgB), ("signature", Json.str "t1")])]

def recBad : Json := Json.obj [("slot", Json.num 4)]

/-! Case analysis of a tick. -/

theorem tick_spec (snap fetched : Option (List Json)) (postOK : Bool) :
    (postOK = true ∧ (tick snap fetched postOK).2 = true ∧
       (tick snap fetched postOK).1 = fetched ∧ fetched ≠ none) ∨
    ((tick snap fetched postOK).1 = snap ∧
       ¬((tick snap fetched postOK).2 = true ∧ postOK = true)) := by
  cases fetched with
  | none => right; simp [tick]
  | some data =>
    cases snap with
    | none =>
      cases postOK with
      | true => left; simp [tick]
      | false => right; simp [tick]
    | some old =>
      cases hd : detect_changes old data with
      | none => right; simp [tick, hd]
      | some cs =>
        by_cases hc : cs.added ≠ [] ∨ cs.removed ≠ [] ∨ cs.updated ≠ []
        · cases postOK with
          | true => left; simp [tick, hd, hc]
          | false => right; simp [tick, hd, hc]
        · right; simp [tick, hd, hc]

theorem stepState_inv (s : LoopState) (fetched : Option (List Json)) (postOK : Bool)
    (h : s.snap = s.lastForwarded) :
    (stepState s fetched postOK).snap = (stepState s fetched postOK).lastForwarded := by
  rcases tick_spec s.snap fetched postOK with ⟨hp, hpost, heq, _⟩ | ⟨heq, hnot⟩
  · subst hp
    simp [stepState, hpost, heq]
  · have hand : ((tick s.snap fetched postOK).2 && postOK) = false := by
      cases h2 : (tick s.snap fetched postOK).2 <;> cases hp : postOK <;> simp_all
    simp [stepState, hand]
    rw [heq]
    exact h

theorem runTrace_inv (events : List (Option (List Json) × Bool)) :
    ∀ s : LoopState, s.snap = s.lastForwarded →
      (List.foldl (fun s e => stepState s e.1 e.2) s events).snap =
        (List.foldl (fun s e => stepState s e.1 e.2) s events).lastForwarded := by
  induction events with
  | nil => intro s h; exact h
  | cons e es ih => intro s h; exact ih _ (stepState_inv s e.1 e.2 h)

/-- C1: the stored snapshot changes only when the POST succeeds (accepted
status 200, 201 or 202), and then it is replaced wholesale by the newly
fetched dataset; on fetch failure or POST failure it is unchanged, and
along every run the snapshot always equals the last successfully forwarded
dataset. -/
theorem c1_snapshot_tracks_successful_forward :
    (∀ snap fetched postOK,
       ((tick snap fetched postOK).1 ≠ snap →
          postOK = true ∧ (tick snap fetched postOK).2 = true ∧
            (tick snap fetched postOK).1 = fetched) ∧
       (postOK = false → (tick snap fetched postOK).1 = snap) ∧
       (fetched = none → (tick snap fetched postOK).1 = snap)) ∧
    (∀ events, (runTrace events).snap = (runTrace events).lastForwarded) ∧
    (∀ status, post_to_target_ok status = true ↔
       status = 200 ∨ status = 201 ∨ status = 202) := by
  refine ⟨fun snap fetched postOK => ?_, fun events => runTrace_inv events _ rfl, fun status => ?_⟩
  · rcases tick_spec snap fetched postOK with ⟨hp, hpost, heq, hne⟩ | ⟨heq, hnot⟩
    · exact ⟨fun _ => ⟨hp, hpost, heq⟩, fun hpf => absurd hp (by simp [hpf]),
        fun hf => absurd hf hne⟩
    · exact ⟨fun hne => absurd heq hne, fun _ => heq, fun _ => heq⟩
  · simp [post_to_target_ok, or_assoc]

/-- C1 witness: a failed POST leaves the snapshot unchanged on a concrete
tick, and the empty run satisfies the snapshot/last-forwarded invariant. -/
theorem c1_witness :
    (tick (some [recA1]) (some [recA2]) false).1 = some [recA1] ∧
    (runTrace []).snap = (runTrace []).lastForwarded ∧
    (post_to_target_ok 201 = true ↔ 201 = 200 ∨ 201 = 201 ∨ 201 = 202) :=
  ⟨(c1_snapshot_tracks_successful_forward.1 (some [recA1]) (some [recA2]) false).2.1 rfl,
   c1_snapshot_tracks_successful_forward.2.1 [],
   c1_snapshot_tracks_successful_forward.2.2 201⟩

/-- C5: on a STEADY tick whose change set is empty in all three
categories, no POST is attempted and the stored snapshot is unchanged. -/
theorem c5_empty_changes_no_post (old data : List Json) (postOK : Bool)
    (h : detect_changes old data = some ⟨[], [], []⟩) :
    tick (some old) (some data) postOK = (some old, false) := by
  simp [tick, h]

/-- C5 witness at a concrete STEADY tick with an identical fetch. -/
theorem c5_witness :
    detect_changes [recA1] [recA1] = some ⟨[], [], []⟩ ∧
    tick (some [recA1]) (some [recA1]) true = (some [recA1], false) :=
  ⟨by decide, c5_empty_changes_no_post [recA1] [recA1] true (by decide)⟩

/-- C10: the dict comprehensions of detect_changes keep, for each pubkey,
only the last record of the sequence with that pubkey (earlier occurrences
are overwritten), and the comparison depends on the snapshots only through
those dicts. -/
theorem c10_last_occurrence_wins :
    (∀ data m, buildDict data = some m → ∀ k, lookupField k m = lastWith k data) ∧
    (∀ old1 old2 new1 new2, buildDict old1 = buildDict old2 →
       buildDict new1 = buildDict new2 →
       detect_changes old1 new1 = detect_changes old2 new2) := by
  refine ⟨fun data m h k => buildDict_lookup data m h k, ?_⟩
  intro old1 old2 new1 new2 h1 h2
  simp only [detect_changes, h1, h2]

/-- C10 witness: two records with the same pubkey; the dict holds the
second one and lookup agrees with the last occurrence. -/
theorem c10_witness :
    buildDict [recA1, recA2] = some [("a", recA2)] ∧
    lookupField "a" [("a", recA2)] = lastWith "a" [recA1, recA2] ∧
    lastWith "a" [recA1, recA2] = some recA2 :=
  ⟨by decide,
   c10_last_occurrence_wins.1 [recA1, recA2] [("a", recA2)] (by decide) "a",
   by decide⟩

/-! Lemmas for the idempotence and canonical-comparison properties of the
change detector. -/

theorem detect_changes_self (d : List Json) (h : ∀ r ∈ d, (pkOf r).isSome) :
    detect_changes d d = some ⟨[], [], []⟩ := by
  obtain ⟨m, hm⟩ := Option.isSome_iff_exists.mp (buildDictAux_isSome d [] h)
  have hm2 : buildDict d = some m := hm
  simp only [detect_changes, hm2]
  have hadded : (m.map Prod.fst).filter (fun k => decide (lookupField k m = none)) = [] := by
    rw [List.filter_eq_nil_iff]
    intro k hk
    simp only [decide_eq_true_eq]
    rw [lookupField_eq_none_iff]
    simp [hk]
  have hupdated : ∀ l : List String,
      l.filter (fun k =>
        decide (Option.map canon (lookupField k m) ≠ Option.map canon (lookupField k m))) = [] := by
    intro l
    rw [List.filter_eq_nil_iff]
    intro k _
    simp
  simp [hadded, hupdated]

theorem buildDictAux_canon_rel (old new : List Json)
    (hrel : List.Forall₂ (fun a b => canon a = canon b) old new) :
    ∀ acc1 acc2,
      (∀ k, Option.map canon (lookupField k acc1) = Option.map canon (lookupField k acc2)) →
      ∀ mo mn, buildDictAux acc1 old = some mo → buildDictAux acc2 new = some mn →
        ∀ k, Option.map canon (lookupField k mo) = Option.map canon (lookupField k mn) := by
  induction hrel with
  | nil =>
    intro acc1 acc2 hacc mo mn h1 h2 k
    simp only [buildDictAux, Option.some_inj] at h1 h2
    subst h1
    subst h2
    exact hacc k
  | @cons a b as bs hab hrest ih =>
    intro acc1 acc2 hacc mo mn hb1 hb2 k
    have hpk : pkOf a = pkOf b := by rw [← pkOf_canon a, hab, pkOf_canon]
    cases hpka : pkOf a with
    | none => simp [buildDictAux, hpka] at hb1
    | some k1 =>
      have hpkb : pkOf b = some k1 := hpk ▸ hpka
      simp only [buildDictAux, hpka] at hb1
      simp only [buildDictAux, hpkb] at hb2
      refine ih _ _ ?_ _ _ hb1 hb2 k
      intro k2
      rw [lookupField_insertDict, lookupField_insertDict]
      by_cases hk : k1 = k2
      · simp [hk, hab]
      · simp [hk, hacc k2]

theorem detect_changes_updated_nil (old new : List Json) (cs : ChangeSet)
    (hrel : List.Forall₂ (fun a b => canon a = canon b) old new)
    (h : detect_changes old new = some cs) : cs.updated = [] := by
  cases h1 : buildDict old with
  | none => simp [detect_changes, h1] at h
  | some mo =>
    cases h2 : buildDict new with
    | none => simp [detect_changes, h1, h2] at h
    | some mn =>
      have hcan := buildDictAux_canon_rel old new hrel [] [] (fun _ => rfl) mo mn h1 h2
      simp only [detect_changes, h1, h2, Option.some_inj] at h
      have hfil : ∀ l : List String,
          l.filter (fun k =>
            decide (Option.map canon (lookupField k mo) ≠
              Option.map canon (lookupField k mn))) = [] := by
        intro l
        rw [List.filter_eq_nil_iff]
        intro k _
        simp [hcan k]
      rw [← h]
      show List.filterMap (fun k => lookupField k mn)
          (List.filter (fun k =>
            decide (Option.map canon (lookupField k mo) ≠ Option.map canon (lookupField k mn)))
            (List.filter (fun k => decide (lookupField k mo ≠ none)) (List.map Prod.fst mn))) = []
      rw [hfil]
      rfl

/-- C3: running the change detector on two identical snapshots yields the
empty change set, and more generally two snapshots whose records are
pairwise equal up to reordering of keys inside their JSON objects produce
no updated classification: the comparison is by canonical sorted-key
serialization, not raw equality. -/
theorem c3_self_and_key_reordering :
    (∀ d, (∀ r ∈ d, (pkOf r).isSome) → detect_changes d d = some ⟨[], [], []⟩) ∧
    (∀ old new cs, List.Forall₂ (fun a b => canon a = canon b) old new →
       detect_changes old new = some cs → cs.updated = []) :=
  ⟨detect_changes_self, fun old new cs hrel h => detect_changes_updated_nil old new cs hrel h⟩

/-- C3 witness: a concrete snapshot compared with itself, and with a
key-reordered copy of itself. -/
theorem c3_witness :
    detect_changes [recA1] [recA1] = some ⟨[], [], []⟩ ∧
    detect_changes [recA1] [recA1r] = some ⟨[], [], []⟩ ∧
    ChangeSet.updated ⟨[], [], []⟩ = [] :=
  ⟨c3_self_and_key_reordering.1 [recA1] (by decide),
   by decide,
   c3_self_and_key_reordering.2 [recA1] [recA1r] ⟨[], [], []⟩
     (List.Forall₂.cons (by decide) List.Forall₂.nil) (by decide)⟩

/-! Lemmas for the added/removed/updated characterization of the change
detector on snapshots with pairwise-distinct pubkeys. -/

theorem pkOf_eq_pkD (r : Json) (h : (pkOf r).isSome) : pkOf r = some (pkD r) := by
  cases hx : pkOf r with
  | none => rw [hx] at h; simp at h
  | some s => simp [pkD, hx]

theorem nodup_pkD (data : List Json) (hsome : ∀ r ∈ data, (pkOf r).isSome)
    (hnodup : (data.map pkOf).Nodup) : (data.map pkD).Nodup := by
  have hmap : data.map pkOf = (data.map pkD).map some := by
    rw [List.map_map]
    apply List.map_congr_left
    intro r hr
    exact pkOf_eq_pkD r (hsome r hr)
  rw [hmap] at hnodup
  exact List.Nodup.of_map some hnodup

theorem mapPk_fst (data : List Json) :
    (data.map fun r => (pkD r, r)).map Prod.fst = data.map pkD := by
  rw [List.map_map]
  rfl

theorem lookup_mapPk_self (data : List Json) (hnd : (data.map pkD).Nodup) :
    ∀ r ∈ data, lookupField (pkD r) (data.map fun x => (pkD x, x)) = some r := by
  induction data with
  | nil => intro r hr; cases hr
  | cons q rest ih =>
    intro r hr
    have hnd2 : (rest.map pkD).Nodup := (List.nodup_cons.mp hnd).2
    have hnotin : pkD q ∉ rest.map pkD := (List.nodup_cons.mp hnd).1
    rcases List.mem_cons.mp hr with h1 | h1
    · subst h1
      simp [lookupField]
    · have hne : ¬pkD q = pkD r := fun he => hnotin (he ▸ List.mem_map_of_mem pkD h1)
      simp only [List.map_cons, lookupField, if_neg hne]
      exact ih hnd2 r h1

theorem lookup_mapPk_some (data : List Json) (k : String) (q : Json)
    (h : lookupField k (data.map fun x => (pkD x, x)) = some q) : q ∈ data ∧ pkD q = k := by
  induction data with
  | nil => simp [lookupField] at h
  | cons a rest ih =>
    simp only [List.map_cons, lookupField] at h
    by_cases hk : pkD a = k
    · rw [if_pos hk] at h
      cases h
      exact ⟨by simp, hk⟩
    · rw [if_neg hk] at h
      obtain ⟨h1, h2⟩ := ih h
      exact ⟨by simp [h1], h2⟩

theorem filterMap_eq_self (l : List Json) (g : Json → Option Json)
    (h : ∀ a ∈ l, g a = some a) : l.filterMap g = l := by
  induction l with
  | nil => rfl
  | cons a as ih =>
    rw [List.filterMap_cons, h a (by simp)]
    rw [ih (fun b hb => h b (by simp [hb]))]

/-- Identifier-absence predicate of the spec: the record's pubkey occurs
nowhere in the other snapshot. -/
def pkAbsent (other : List Json) (r : Json) : Bool :=
  decide (∀ q ∈ other, pkOf q ≠ pkOf r)

/-- Identifier-updated predicate of the spec: the record's pubkey occurs in
the old snapshot with a canonically different record body. -/
def pkUpdated (old : List Json) (r : Json) : Bool :=
  decide (∃ q ∈ old, pkOf q = pkOf r ∧ canon q ≠ canon r)

theorem pkD_eq_of_pkOf_eq (q r : Json) (h : pkOf q = pkOf r) : pkD q = pkD r := by
  simp [pkD, h]

theorem detect_changes_nodup_eq (old new : List Json)
    (hOldSome : ∀ r ∈ old, (pkOf r).isSome) (hNewSome : ∀ r ∈ new, (pkOf r).isSome)
    (hOldNodup : (old.map pkOf).Nodup) (hNewNodup : (new.map pkOf).Nodup) :
    detect_changes old new = some
      { added := new.filter (pkAbsent old),
        removed := old.filter (pkAbsent new),
        updated := new.filter (pkUpdated old) } := by
  have hOldND := nodup_pkD old hOldSome hOldNodup
  have hNewND := nodup_pkD new hNewSome hNewNodup
  have hbo := buildDict_of_nodup old hOldSome hOldNodup
  have hbn := buildDict_of_nodup new hNewSome hNewNodup
  have hkeyIff : ∀ r, (pkOf r).isSome → ∀ data : List Json, (∀ q ∈ data, (pkOf q).isSome) →
      (lookupField (pkD r) (data.map fun x => (pkD x, x)) = none ↔
        ∀ q ∈ data, pkOf q ≠ pkOf r) := by
    intro r hr data hdata
    rw [lookupField_eq_none_iff, mapPk_fst]
    constructor
    · intro hni q hq heq
      exact hni (pkD_eq_of_pkOf_eq q r heq ▸ List.mem_map_of_mem pkD hq)
    · intro hall hmem
      obtain ⟨q, hq, hqk⟩ := List.mem_map.mp hmem
      apply hall q hq
      rw [pkOf_eq_pkD q (hdata q hq), pkOf_eq_pkD r hr, hqk]
  simp only [detect_changes, hbo, hbn, Option.some_inj, mapPk_fst]
  congr 1
  · rw [List.filter_map, List.filterMap_map]
    simp only [Function.comp_def]
    rw [filterMap_eq_self _ _
      (fun a ha => lookup_mapPk_self new hNewND a (List.mem_of_mem_filter ha))]
    apply List.filter_congr
    intro r hr
    show decide (lookupField (pkD r) (old.map fun x => (pkD x, x)) = none) = pkAbsent old r
    unfold pkAbsent
    rw [decide_eq_decide]
    exact hkeyIff r (hNewSome r hr) old hOldSome
  · rw [List.filter_map, List.filterMap_map]
    simp only [Function.comp_def]
    rw [filterMap_eq_self _ _
      (fun a ha => lookup_mapPk_self old hOldND a (List.mem_of_mem_filter ha))]
    apply List.filter_congr
    intro r hr
    show decide (lookupField (pkD r) (new.map fun x => (pkD x, x)) = none) = pkAbsent new r
    unfold pkAbsent
    rw [decide_eq_decide]
    exact hkeyIff r (hOldSome r hr) new hNewSome
  · rw [List.filter_filter, List.filter_map, List.filterMap_map]
    simp only [Function.comp_def]
    rw [filterMap_eq_self _ _
      (fun a ha => lookup_mapPk_self new hNewND a (List.mem_of_mem_filter ha))]
    apply List.filter_congr
    intro r hr
    have hlookn : lookupField (pkD r) (new.map fun x => (pkD x, x)) = some r :=
      lookup_mapPk_self new hNewND r hr
    show (decide (Option.map canon (lookupField (pkD r) (old.map fun x => (pkD x, x))) ≠
        Option.map canon (lookupField (pkD r) (new.map fun x => (pkD x, x)))) &&
      decide (lookupField (pkD r) (old.map fun x => (pkD x, x)) ≠ none)) = pkUpdated old r
    rw [hlookn]
    unfold pkUpdated
    rw [← Bool.decide_and, decide_eq_decide]
    constructor
    · rintro ⟨hcd, hnn⟩
      cases hlo : lookupField (pkD r) (old.map fun x => (pkD x, x)) with
      | none => exact absurd hlo hnn
      | some q =>
        obtain ⟨hqmem, hqk⟩ := lookup_mapPk_some old (pkD r) q hlo
        refine ⟨q, hqmem, ?_, ?_⟩
        · rw [pkOf_eq_pkD q (hOldSome q hqmem), pkOf_eq_pkD r (hNewSome r hr), hqk]
        · rw [hlo] at hcd
          simpa using hcd
    · rintro ⟨q, hq, hpk, hc⟩
      have hdq : pkD q = pkD r := pkD_eq_of_pkOf_eq q r hpk
      have hlo : lookupField (pkD r) (old.map fun x => (pkD x, x)) = some q :=
        hdq ▸ lookup_mapPk_self old hOldND q hq
      rw [hlo]
      exact ⟨by simpa using hc, by simp⟩

def recA1u : Json := Json.obj [("slot", Json.num 9),
  ("entry", Json.obj [("message", msgA), ("signature", Json.str "s9")])]

theorem lastWith_pkOf (k : String) (data : List Json) (a : Json)
    (h : lastWith k data = some a) : pkOf a = some k := by
  induction data with
  | nil => cases h
  | cons item rest ih =>
    simp only [lastWith] at h
    cases hl : lastWith k rest with
    | some r =>
      rw [hl] at h
      cases h
      exact ih hl
    | none =>
      rw [hl] at h
      by_cases hp : pkOf item = some k
      · rw [if_pos hp] at h
        cases h
        exact hp
      · rw [if_neg hp] at h
        cases h

theorem pkOf_of_buildDict_lookup (data : List Json) (m : List (String × Json))
    (hb : buildDict data = some m) (k : String) (a : Json)
    (hl : lookupField k m = some a) : pkOf a = some k := by
  rw [buildDict_lookup data m hb k] at hl
  exact lastWith_pkOf k data a hl

/-- C2 (amended): on snapshots whose records all carry pubkeys that are
pairwise distinct within each snapshot, the detector returns exactly
added = the records of new whose pubkey is absent from old, removed = the
records of old whose pubkey is absent from new, updated = the records of
new whose pubkey occurs in both snapshots and whose canonical
serialization differs from the old record (each sequence in the
embedding's fixed enumeration of Python's unordered key sets); and on
every pair of snapshots on which the detector succeeds at all, duplicates
included, the three output sequences are pairwise disjoint by pubkey. -/
theorem c2_partition_exact :
    (∀ old new : List Json,
       (∀ r ∈ old, (pkOf r).isSome) → (∀ r ∈ new, (pkOf r).isSome) →
       (old.map pkOf).Nodup → (new.map pkOf).Nodup →
       detect_changes old new = some
         { added := new.filter (pkAbsent old),
           removed := old.filter (pkAbsent new),
           updated := new.filter (pkUpdated old) }) ∧
    (∀ old new cs, detect_changes old new = some cs →
       (∀ a ∈ cs.added, ∀ b ∈ cs.removed, pkOf a ≠ pkOf b) ∧
       (∀ a ∈ cs.added, ∀ b ∈ cs.updated, pkOf a ≠ pkOf b) ∧
       (∀ a ∈ cs.removed, ∀ b ∈ cs.updated, pkOf a ≠ pkOf b)) := by
  refine ⟨fun old new h1 h2 h3 h4 => detect_changes_nodup_eq old new h1 h2 h3 h4, ?_⟩
  intro old new cs h
  cases h1 : buildDict old with
  | none => simp [detect_changes, h1] at h
  | some mo =>
  cases h2 : buildDict new with
  | none => simp [detect_changes, h1, h2] at h
  | some mn =>
  simp only [detect_changes, h1, h2, Option.some_inj] at h
  subst h
  have hmemAdded : ∀ a, a ∈ (List.filter (fun k => decide (lookupField k mo = none))
        (mn.map Prod.fst)).filterMap (fun k => lookupField k mn) →
      ∃ k, pkOf a = some k ∧ lookupField k mo = none := by
    intro a ha
    obtain ⟨k, hk, hlk⟩ := List.mem_filterMap.mp ha
    obtain ⟨_, hkp⟩ := List.mem_filter.mp hk
    exact ⟨k, pkOf_of_buildDict_lookup new mn h2 k a hlk, of_decide_eq_true hkp⟩
  have hmemRemoved : ∀ b, b ∈ (List.filter (fun k => decide (lookupField k mn = none))
        (mo.map Prod.fst)).filterMap (fun k => lookupField k mo) →
      ∃ k, pkOf b = some k ∧ k ∈ mo.map Prod.fst ∧ lookupField k mn = none := by
    intro b hb
    obtain ⟨k, hk, hlk⟩ := List.mem_filterMap.mp hb
    obtain ⟨hkm, hkp⟩ := List.mem_filter.mp hk
    exact ⟨k, pkOf_of_buildDict_lookup old mo h1 k b hlk, hkm, of_decide_eq_true hkp⟩
  have hmemUpdated : ∀ u, u ∈ ((List.filter (fun k => decide (lookupField k mo ≠ none))
          (mn.map Prod.fst)).filter (fun k =>
            decide (Option.map canon (lookupField k mo) ≠
              Option.map canon (lookupField k mn)))).filterMap
        (fun k => lookupField k mn) →
      ∃ k, pkOf u = some k ∧ lookupField k mo ≠ none ∧ k ∈ mn.map Prod.fst := by
    intro u hu
    obtain ⟨k, hk, hlk⟩ := List.mem_filterMap.mp hu
    obtain ⟨hk2, _⟩ := List.mem_filter.mp hk
    obtain ⟨hkm, hkp⟩ := List.mem_filter.mp hk2
    exact ⟨k, pkOf_of_buildDict_lookup new mn h2 k u hlk, of_decide_eq_true hkp, hkm⟩
  refine ⟨?_, ?_, ?_⟩
  · intro a ha b hb heq
    obtain ⟨k, hka, hkao⟩ := hmemAdded a ha
    obtain ⟨k2, hkb, hkbm, _⟩ := hmemRemoved b hb
    rw [hka, hkb] at heq
    cases heq
    exact (lookupField_eq_none_iff k mo).mp hkao hkbm
  · intro a ha b hb heq
    obtain ⟨k, hka, hkao⟩ := hmemAdded a ha
    obtain ⟨k2, hkb, hkbo, _⟩ := hmemUpdated b hb
    rw [hka, hkb] at heq
    cases heq
    exact hkbo hkao
  · intro a ha b hb heq
    obtain ⟨k, hka, _, hkan⟩ := hmemRemoved a ha
    obtain ⟨k2, hkb, _, hkbm⟩ := hmemUpdated b hb
    rw [hka, hkb] at heq
    cases heq
    exact (lookupField_eq_none_iff k mn).mp hkan hkbm

/-- C2 counterexample: when the new snapshot carries the same pubkey
twice, the dict construction drops the earlier occurrence, so added is not
the sequence of records of new whose pubkey is absent from old (recA1
qualifies but is not returned, not even up to reordering). -/
theorem c2_counterexample :
    detect_changes [] [recA1, recA2] = some ⟨[recA2], [], []⟩ ∧
    List.filter (pkAbsent []) [recA1, recA2] = [recA1, recA2] ∧
    ¬(ChangeSet.added ⟨[recA2], [], []⟩).Perm (List.filter (pkAbsent []) [recA1, recA2]) := by
  refine ⟨by decide, by decide, fun h => ?_⟩
  have h2 := h.length_eq
  rw [show List.filter (pkAbsent []) [recA1, recA2] = [recA1, recA2] from by decide] at h2
  simp at h2

/-- C2 witness: the exact characterization at concrete distinct-pubkey
snapshots with one updated and one added record, and disjointness at a
concrete duplicate-pubkey detection. -/
theorem c2_witness :
    detect_changes [recA1] [recA1u, recB] = some
      { added := List.filter (pkAbsent [recA1]) [recA1u, recB],
        removed := List.filter (pkAbsent [recA1u, recB]) [recA1],
        updated := List.filter (pkUpdated [recA1]) [recA1u, recB] } ∧
    ((∀ a ∈ ChangeSet.added ⟨[recA2], [], []⟩, ∀ b ∈ ChangeSet.removed ⟨[recA2], [], []⟩,
        pkOf a ≠ pkOf b) ∧
     (∀ a ∈ ChangeSet.added ⟨[recA2], [], []⟩, ∀ b ∈ ChangeSet.updated ⟨[recA2], [], []⟩,
        pkOf a ≠ pkOf b) ∧
     (∀ a ∈ ChangeSet.removed ⟨[recA2], [], []⟩, ∀ b ∈ ChangeSet.updated ⟨[recA2], [], []⟩,
        pkOf a ≠ pkOf b)) :=
  ⟨c2_partition_exact.1 [recA1] [recA1u, recB] (by decide) (by decide) (by decide) (by decide),
   c2_partition_exact.2 [] [recA1, recA2] ⟨[recA2], [], []⟩ (by decide)⟩

/-! Lemmas about the format transformer. -/

theorem any_key_lookup_none (fs : List (String × Json)) (k : String)
    (h : lookupField k fs = none) : (fs.any fun f => decide (f.1 = k)) = false := by
  induction fs with
  | nil => rfl
  | cons g gs ih =>
    obtain ⟨k2, v2⟩ := g
    simp only [lookupField] at h
    by_cases h2 : k2 = k
    · rw [if_pos h2] at h
      cases h
    · rw [if_neg h2] at h
      simp [h2, ih h]

theorem any_key_lookup_some (fs : List (String × Json)) (k : String) (v : Json)
    (h : lookupField k fs = some v) : (fs.any fun f => decide (f.1 = k)) = true := by
  induction fs with
  | nil => cases h
  | cons g gs ih =>
    obtain ⟨k2, v2⟩ := g
    simp only [lookupField] at h
    by_cases h2 : k2 = k
    · simp [h2]
    · rw [if_neg h2] at h
      simp [h2, ih h]

theorem transformItem_good (item : Json) (h : goodItem item = true) :
    transformItem item = .ok (expectedTransform item) := by
  cases item with
  | obj fs =>
    cases hent : lookupField "entry" fs with
    | none =>
      have hany := any_key_lookup_none fs "entry" hent
      simp [transformItem, containsKeyPy, hany, expectedTransform, entryMessage,
        entrySignature, entryField, hent]
    | some e =>
      have hany := any_key_lookup_some fs "entry" e hent
      cases e with
      | obj es =>
        cases hmsg : lookupField "message" es with
        | none =>
          have hanym := any_key_lookup_none es "message" hmsg
          simp [transformItem, containsKeyPy, getItemPy, hany, hent, hanym,
            expectedTransform, entryMessage, entryField, hmsg]
        | some m =>
          have hanym := any_key_lookup_some es "message" m hmsg
          cases hsig : lookupField "signature" es with
          | none =>
            have hanys := any_key_lookup_none es "signature" hsig
            simp [transformItem, containsKeyPy, getItemPy, hany, hent, hanym, hanys,
              expectedTransform, entryMessage, entrySignature, entryField, hmsg, hsig]
          | some s =>
            have hanys := any_key_lookup_some es "signature" s hsig
            simp [transformItem, containsKeyPy, getItemPy, hany, hent, hanym, hanys,
              expectedTransform, entryMessage, entrySignature, entryField, hmsg, hsig]
      | null => simp [goodItem, hent] at h
      | bool b => simp [goodItem, hent] at h
      | num n => simp [goodItem, hent] at h
      | str s => simp [goodItem, hent] at h
      | arr xs => simp [goodItem, hent] at h
  | null => simp [goodItem] at h
  | bool b => simp [goodItem] at h
  | num n => simp [goodItem] at h
  | str s => simp [goodItem] at h
  | arr xs => simp [goodItem] at h

theorem transformItems_good (data : List Json) (h : ∀ item ∈ data, goodItem item = true) :
    transformItems data = .ok (data.filterMap expectedTransform) := by
  induction data with
  | nil => rfl
  | cons item rest ih =>
    have h1 := transformItem_good item (h item (by simp))
    have h2 := ih (fun r hr => h r (by simp [hr]))
    simp only [transformItems, h1, h2, List.filterMap_cons]
    cases hexp : expectedTransform item <;> simp [hexp]

def recNoSig : Json := Json.obj [("slot", Json.num 7),
  ("entry", Json.obj [("message", msgB)])]

/-- C4 counterexample: a non-dict record makes the membership test at line
93 raise TypeError, so the whole transformation falls back to returning
the original data (lines 108-111); the returned record then has neither
the message/signature shape nor was it dropped although it lacks entry. -/
theorem c4_counterexample :
    transform_data_format [Json.num 5] = [Json.num 5] ∧
    isForwardShape (Json.num 5) = false ∧
    entryField (Json.num 5) = none := by
  refine ⟨rfl, rfl, rfl⟩

/-- C4 (amended): on inputs whose records are JSON objects whose entry
field, when present, is itself an object (so that the per-record test
raises nothing), the transformer emits exactly the records holding both
entry.message and entry.signature, reshaped to the two-field
message/signature form, in order; hence output length is at most input
length, every output record has exactly the two fields message and
signature copied from the record's entry, and the dropped inputs are
exactly those lacking entry, entry.message or entry.signature. -/
theorem c4_transform_shape (data : List Json)
    (h : ∀ item ∈ data, goodItem item = true) :
    transform_data_format data = data.filterMap expectedTransform ∧
    (transform_data_format data).length ≤ data.length ∧
    ∀ out ∈ transform_data_format data, isForwardShape out = true := by
  have ht := transformItems_good data h
  have heq : transform_data_format data = data.filterMap expectedTransform := by
    simp [transform_data_format, ht]
  refine ⟨heq, ?_, ?_⟩
  · rw [heq]
    exact List.length_filterMap_le _ _
  · rw [heq]
    intro out hout
    obtain ⟨a, _, ha⟩ := List.mem_filterMap.mp hout
    unfold expectedTransform at ha
    cases hm : entryMessage a <;> rw [hm] at ha
    · cases ha
    · cases hs : entrySignature a <;> rw [hs] at ha
      · cases ha
      · cases ha
        rfl

/-- C4 witness: one well-formed record and one record lacking
entry.signature. -/
theorem c4_witness :
    transform_data_format [recA1, recNoSig] =
      List.filterMap expectedTransform [recA1, recNoSig] ∧
    (transform_data_format [recA1, recNoSig]).length ≤
      ([recA1, recNoSig] : List Json).length ∧
    ∀ out ∈ transform_data_format [recA1, recNoSig], isForwardShape out = true :=
  c4_transform_shape [recA1, recNoSig] (by decide)

/-- C8: when the transformation loop raises, transform_data_format
returns the original dataset unchanged (lines 108-111), and that original
dataset is exactly the payload post_to_target hands to requests.post, so
the tick is not aborted and the untransformed data is forwarded. -/
theorem c8_transform_error_fallback (data : List Json)
    (h : transformItems data = .error ()) :
    transform_data_format data = data ∧ post_to_target_payload data = data := by
  constructor <;> simp [transform_data_format, post_to_target_payload, h]

/-- C8 witness: a null record raises TypeError inside the loop. -/
theorem c8_witness :
    transformItems [Json.null] = Except.error () ∧
    transform_data_format [Json.null] = [Json.null] ∧
    post_to_target_payload [Json.null] = [Json.null] :=
  ⟨rfl, (c8_transform_error_fallback [Json.null] rfl).1,
   (c8_transform_error_fallback [Json.null] rfl).2⟩

/-- C6 counterexample: on a STEADY tick whose fetched data contains a
record without the entry field, detect_changes raises KeyError before any
forwarding, the blanket handler treats it as a failed fetch, and the tick
forwards nothing at all - although the fetch also contained a valid,
transformable record (recB) that the claim says is still forwarded. -/
theorem c6_counterexample :
    pkOf recBad = none ∧
    expectedTransform recB =
      some (Json.obj [("message", msgB), ("signature", Json.str "t1")]) ∧
    detect_changes [recA1] [recBad, recB] = none ∧
    tick (some [recA1]) (some [recBad, recB]) true = (some [recA1], false) :=
  ⟨rfl, rfl, rfl, rfl⟩

/-- C6 (amended): on a first-run tick the dataset is always posted, with
the transformer dropping exactly the records lacking entry.message or
entry.signature (for exception-free record shapes); on a STEADY tick a
record missing the entry.message.pubkey path makes the change detection
raise, the exception is caught as a fetch failure, and the whole tick is
skipped: nothing is forwarded and the snapshot is unchanged. -/
theorem c6_malformed_record_handling :
    (∀ data postOK, (tick none (some data) postOK).2 = true) ∧
    (∀ data, (∀ item ∈ data, goodItem item = true) →
       post_to_target_payload data = data.filterMap expectedTransform) ∧
    (∀ old new postOK r, r ∈ new → pkOf r = none →
       tick (some old) (some new) postOK = (some old, false)) := by
  refine ⟨fun data postOK => ?_, fun data h => ?_,
    fun old new postOK r hr hpk => ?_⟩
  · cases postOK <;> rfl
  · have ht := transformItems_good data h
    simp [post_to_target_payload, transform_data_format, ht]
  · have hb : buildDict new = none := buildDict_none_of_mem new r hr hpk
    have hd : detect_changes old new = none := by
      unfold detect_changes
      rw [hb]
      cases buildDict old <;> rfl
    simp [tick, hd]

/-- C6 witness for the amended claim at concrete inputs. -/
theorem c6_witness :
    (tick none (some [recBad, recB]) true).2 = true ∧
    post_to_target_payload [recA1, recNoSig] =
      List.filterMap expectedTransform [recA1, recNoSig] ∧
    tick (some [recA1]) (some [recBad, recB]) false = (some [recA1], false) :=
  ⟨c6_malformed_record_handling.1 [recBad, recB] true,
   c6_malformed_record_handling.2.1 [recA1, recNoSig] (by decide),
   c6_malformed_record_handling.2.2 [recA1] [recBad, recB] false recBad (by decide) rfl⟩

/-- Substring occurrence of a path segment inside a URL (Python in). -/
def containsSeg (s seg : String) : Bool := decide (seg.data <:+: s.data)

def badSourceURL : String := "http://r/relay/v1/builder/validators/x"

/-- C7 counterexample: an unexpected, ordinary-Exception-class failure
raised inside the tick body is caught by the blanket handler of
fetch_validators, so it does not propagate out of the loop and the process
keeps running (runExit is still none), contradicting the claim that any
unexpected failure inside the loop terminates the process with non-zero
status. -/
theorem c7_counterexample :
    fetchCatch (Except.error ExcClass.ordinary) = Except.ok none ∧
    runExit [(Except.error ExcClass.ordinary, none)] = none :=
  ⟨rfl, rfl⟩

/-- C7 (amended): every ordinary Exception raised inside the tick body -
expected or unexpected - is caught by the blanket except of
fetch_validators and the loop continues; only exceptions raised outside
the tick body (during the sleep) or a KeyboardInterrupt reach the handlers
of run, where an interrupt exits 0 and any other exception exits 1. -/
theorem c7_exception_routing :
    (∀ body, fetchCatch body ≠ Except.error ExcClass.ordinary) ∧
    (∀ rest, runExit ((Except.error ExcClass.ordinary, none) :: rest) = runExit rest) ∧
    (∀ rest, runExit ((Except.error ExcClass.interrupt, none) :: rest) = some 0) ∧
    (∀ rest out, runExit ((Except.ok out, some ExcClass.interrupt) :: rest) = some 0) ∧
    (∀ rest out, runExit ((Except.ok out, some ExcClass.ordinary) :: rest) = some 1) := by
  refine ⟨fun body => ?_, fun rest => rfl, fun rest => rfl,
    fun rest out => rfl, fun rest out => rfl⟩
  cases body with
  | ok v => simp [fetchCatch]
  | error e => cases e <;> simp [fetchCatch]

/-- C9 counterexample: a URL that contains the validators path segment in
the middle but does not end with it: the segment is already present, yet
the constructor appends a second copy, so the appended-iff-not-present
claim fails (and the final URL contains two occurrences). -/
theorem c9_counterexample :
    containsSeg badSourceURL validatorsPath = true ∧
    normalizeSourceRelay badSourceURL ≠ badSourceURL ∧
    normalizeSourceRelay badSourceURL =
      "http://r/relay/v1/builder/validators/x/relay/v1/builder/validators" := by
  refine ⟨by decide, by decide, by decide⟩

/-- C9 (amended): the GET URL always ends with the validators path
segment; the segment is appended, after stripping trailing slashes,
exactly when the given URL does not already end with the segment (mere
presence elsewhere in the URL does not prevent the append). -/
theorem c9_url_normalization (s : String) :
    endswith (normalizeSourceRelay s) validatorsPath = true ∧
    (endswith s validatorsPath = true → normalizeSourceRelay s = s) ∧
    (endswith s validatorsPath = false →
       normalizeSourceRelay s = rstripSlashes s ++ validatorsPath) := by
  by_cases h : endswith s validatorsPath = true
  · exact ⟨by simp [normalizeSourceRelay, h],
      fun _ => by simp [normalizeSourceRelay, h],
      fun hf => by rw [h] at hf; cases hf⟩
  · have hf : endswith s validatorsPath = false := by
      cases hx : endswith s validatorsPath
      · rfl
      · exact absurd hx h
    have hn : normalizeSourceRelay s = rstripSlashes s ++ validatorsPath := by
      simp [normalizeSourceRelay, hf]
    refine ⟨?_, fun ht => absurd ht h, fun _ => hn⟩
    rw [hn]
    show decide (validatorsPath.data <:+ (rstripSlashes s ++ validatorsPath).data) = true
    rw [String.data_append]
    exact decide_eq_true (List.suffix_append _ _)

/-- C9 witness: a base URL without the segment gets it appended, a URL
already ending with the segment is kept unchanged. -/
theorem c9_witness :
    endswith (normalizeSourceRelay "http://r") validatorsPath = true ∧
    normalizeSourceRelay "http://r" = rstripSlashes "http://r" ++ validatorsPath ∧
    normalizeSourceRelay "http://t/relay/v1/builder/validators" =
      "http://t/relay/v1/builder/validators" :=
  ⟨(c9_url_normalization "http://r").1,
   (c9_url_normalization "http://r").2.2 (by decide),
   (c9_url_normalization "http://t/relay/v1/builder/validators").2.1 (by decide)⟩
